import Mathlib

/-!
Verification development for the AutoML Analytics Hub repository.

The numeric routines of the serverless functions are embedded shallowly:

* JavaScript numbers are modelled as rationals (`ℚ`); the two places where the
  code takes a square root (`Math.sqrt`) are modelled with `Real.sqrt` over `ℝ`.
* JavaScript expressions that produce `NaN`/`undefined` (reading past the end of
  an array, dividing by zero) are modelled with `Option`: `none` is the
  undefined/NaN branch.
* `Math.random()` draws are modelled by an explicit oracle parameter
  (`coins : ℕ → Bool` for the coin flips of the classification path,
  `seeds : ℕ → ℕ` for the k-means centroid seeding), making the dependence of
  every result on the random stream explicit.
* The stateful request handlers and the browser-side polling loop are modelled
  as explicit state machines over small inductive outcome/state types.

Each embedded definition carries a comment naming the source function of the
repository it was translated from.
-/

namespace NativeML

/-! Embedding of the native ML implementations of the `process-ml-model` edge
function variant (the file defining `SimpleLinearRegression`, `KMeans`, the
`ss` statistics helpers, `runClassification`, `runRegression` and the metric
helpers). -/

/-- Embeds `ss.mean`: `arr.reduce((a, b) => a + b, 0) / arr.length`. -/
def ssMean (arr : List ℚ) : ℚ := arr.sum / arr.length

/-- Result of the `SimpleLinearRegression` constructor: the `slope` and
`intercept` fields of the class. -/
structure SimpleLinearRegression where
  slope : ℚ
  intercept : ℚ
deriving Repr

/-- Embeds the `SimpleLinearRegression(x, y)` constructor:
`n = x.length`, `sumX = Σ x_i`, `sumY = Σ y_i`, `sumXY = Σ x_i * y[i]`,
`sumXX = Σ x_i * x_i`,
`slope = (n*sumXY - sumX*sumY) / (n*sumXX - sumX*sumX)`,
`intercept = (sumY - slope*sumX) / n`. -/
def SimpleLinearRegression.fit (x y : List ℚ) : SimpleLinearRegression :=
  let n : ℚ := x.length
  let sumX := x.sum
  let sumY := y.sum
  let sumXY := ((x.zip y).map (fun p => p.1 * p.2)).sum
  let sumXX := (x.map (fun v => v * v)).sum
  let slope := (n * sumXY - sumX * sumY) / (n * sumXX - sumX * sumX)
  let intercept := (sumY - slope * sumX) / n
  ⟨slope, intercept⟩

/-- Embeds `SimpleLinearRegression.predict(x)`: `slope * x + intercept`. -/
def SimpleLinearRegression.predict (m : SimpleLinearRegression) (x : ℚ) : ℚ :=
  m.slope * x + m.intercept

/-- Residual sum of squares of an affine predictor `v ↦ a*v + b` on the paired
columns: the quantity that an ordinary least-squares fit minimises.  This
definition follows the specification (least-squares objective), for comparison
with the closed-form coefficients computed by the source. -/
def residualSumSquares (x y : List ℚ) (a b : ℚ) : ℚ :=
  ((x.zip y).map (fun p => (p.2 - (a * p.1 + b)) ^ 2)).sum

end NativeML

namespace NativeML

/-! Helper lemmas about sums over paired lists, used to derive the normal
equations of the least-squares fit. -/

theorem sum_map_linear (l : List (ℚ × ℚ)) (s c : ℚ) :
    (l.map (fun p => p.2 - (s * p.1 + c))).sum
      = (l.map Prod.snd).sum - s * (l.map Prod.fst).sum - l.length * c := by
  induction l with
  | nil => simp
  | cons p t ih =>
      simp only [List.map_cons, List.sum_cons, ih, List.length_cons]
      push_cast
      ring

theorem sum_map_linear_weighted (l : List (ℚ × ℚ)) (s c : ℚ) :
    (l.map (fun p => p.1 * (p.2 - (s * p.1 + c)))).sum
      = (l.map (fun p => p.1 * p.2)).sum - s * (l.map (fun p => p.1 * p.1)).sum
        - c * (l.map Prod.fst).sum := by
  induction l with
  | nil => simp
  | cons p t ih =>
      simp only [List.map_cons, List.sum_cons, ih]
      ring

theorem sum_sq_decomposition (l : List (ℚ × ℚ)) (s c a b : ℚ) :
    (l.map (fun p => (p.2 - (a * p.1 + b)) ^ 2)).sum
      = (l.map (fun p => (p.2 - (s * p.1 + c)) ^ 2)).sum
        + 2 * (s - a) * (l.map (fun p => p.1 * (p.2 - (s * p.1 + c)))).sum
        + 2 * (c - b) * (l.map (fun p => p.2 - (s * p.1 + c))).sum
        + (l.map (fun p => ((s - a) * p.1 + (c - b)) ^ 2)).sum := by
  induction l with
  | nil => simp
  | cons p t ih =>
      simp only [List.map_cons, List.sum_cons, ih]
      ring

theorem sum_sq_nonneg (l : List (ℚ × ℚ)) (f : ℚ × ℚ → ℚ) :
    0 ≤ (l.map (fun p => (f p) ^ 2)).sum := by
  apply List.sum_nonneg
  intro q hq
  obtain ⟨p, _, rfl⟩ := List.mem_map.mp hq
  positivity

/-- C5: for every pair of equal-length numeric vectors `x` and `y` with `n ≥ 1`
and nonzero denominator `n*Σx_i² - (Σx_i)²`, `SimpleLinearRegression` computes
`slope = (n*Σx_iy_i - Σx_i*Σy_i) / (n*Σx_i² - (Σx_i)²)` and
`intercept = (Σy_i - slope*Σx_i) / n`, i.e. the closed-form ordinary
least-squares fit (the computed coefficients minimise the residual sum of
squares among all affine predictors), and `predict(x)` returns
`slope*x + intercept`. -/
theorem slr_closed_form_least_squares (x y : List ℚ)
    (hlen : x.length = y.length) (hn : 1 ≤ x.length)
    (hD : (x.length : ℚ) * (x.map (fun v => v * v)).sum - x.sum * x.sum ≠ 0) :
    (SimpleLinearRegression.fit x y).slope
        = ((x.length : ℚ) * ((x.zip y).map (fun p => p.1 * p.2)).sum - x.sum * y.sum)
          / ((x.length : ℚ) * (x.map (fun v => v * v)).sum - x.sum * x.sum)
      ∧ (SimpleLinearRegression.fit x y).intercept
        = (y.sum - (SimpleLinearRegression.fit x y).slope * x.sum) / (x.length : ℚ)
      ∧ (∀ v, (SimpleLinearRegression.fit x y).predict v
          = (SimpleLinearRegression.fit x y).slope * v
            + (SimpleLinearRegression.fit x y).intercept)
      ∧ ∀ a b,
          residualSumSquares x y (SimpleLinearRegression.fit x y).slope
            (SimpleLinearRegression.fit x y).intercept
          ≤ residualSumSquares x y a b := by
  have hn0 : (x.length : ℚ) ≠ 0 := by
    have : (0 : ℚ) < x.length := by exact_mod_cast Nat.lt_of_lt_of_le Nat.zero_lt_one hn
    exact ne_of_gt this
  set l := x.zip y with hl_def
  have hl : (l.length : ℚ) = (x.length : ℚ) := by
    rw [hl_def, List.length_zip, hlen, min_self]
  have hfst : l.map Prod.fst = x := List.map_fst_zip x y (le_of_eq hlen)
  have hsnd : l.map Prod.snd = y := List.map_snd_zip x y (ge_of_eq hlen)
  have hxx : (x.map (fun v => v * v)).sum = (l.map (fun p => p.1 * p.1)).sum := by
    rw [← hfst, List.map_map]
    rfl
  have hs : (SimpleLinearRegression.fit x y).slope
      = ((x.length : ℚ) * (l.map (fun p => p.1 * p.2)).sum - x.sum * y.sum)
        / ((x.length : ℚ) * (x.map (fun v => v * v)).sum - x.sum * x.sum) := rfl
  have hc : (SimpleLinearRegression.fit x y).intercept
      = (y.sum - (SimpleLinearRegression.fit x y).slope * x.sum) / (x.length : ℚ) := rfl
  refine ⟨hs, hc, fun v => rfl, fun a b => ?_⟩
  set s := (SimpleLinearRegression.fit x y).slope with hs_def
  set c := (SimpleLinearRegression.fit x y).intercept with hc_def
  have ne1 : (l.map (fun p => p.2 - (s * p.1 + c))).sum = 0 := by
    rw [sum_map_linear, hfst, hsnd, hl, hc]
    field_simp
  have hD2 : (x.length : ℚ) * (l.map (fun p => p.1 * p.1)).sum - x.sum * x.sum ≠ 0 := by
    rw [← hxx]
    exact hD
  have ne2 : (l.map (fun p => p.1 * (p.2 - (s * p.1 + c)))).sum = 0 := by
    rw [sum_map_linear_weighted, hfst, hc, hs, hxx]
    field_simp [hD2]
    ring
  have hdecomp := sum_sq_decomposition l s c a b
  have hnon := sum_sq_nonneg l (fun p => (s - a) * p.1 + (c - b))
  have : residualSumSquares x y a b
      = residualSumSquares x y s c
        + (l.map (fun p => ((s - a) * p.1 + (c - b)) ^ 2)).sum := by
    rw [residualSumSquares, residualSumSquares, ← hl_def, hdecomp, ne1, ne2]
    ring
  linarith

/-- Witness for C5 at `x = [0, 2]`, `y = [1, 5]` (denominator `2*4 - 4 = 4 ≠ 0`). -/
theorem slr_closed_form_least_squares_witness :
    ((([(0:ℚ), 2].length : ℚ)) * ([(0:ℚ), 2].map (fun v => v * v)).sum
        - [(0:ℚ), 2].sum * [(0:ℚ), 2].sum ≠ 0)
    ∧ residualSumSquares [0, 2] [1, 5] (SimpleLinearRegression.fit [0, 2] [1, 5]).slope
        (SimpleLinearRegression.fit [0, 2] [1, 5]).intercept
      ≤ residualSumSquares [0, 2] [1, 5] 3 7 :=
  ⟨by norm_num, (slr_closed_form_least_squares [0, 2] [1, 5] rfl (by norm_num)
    (by norm_num)).2.2.2 3 7⟩


end NativeML

namespace NativeML

/-- Embeds `calculateAccuracy(predictions, actual)`:
`predictions.filter((pred, idx) => pred === actual[idx]).length / predictions.length`.
Positions past the end of `actual` never compare equal in the source (the
lookup is `undefined` there), which the zip reproduces. -/
def calculateAccuracy (predictions actual : List ℚ) : ℚ :=
  (((predictions.zip actual).filter (fun p => p.1 = p.2)).length : ℚ) / predictions.length

/-- Embeds `calculateClassificationMetrics(predictions, actual)`: the
true-positive / false-positive / false-negative counts and the derived
`precision`, `recall`, `f1`.  The JS `|| 0` fallback (which maps the
`0/0 = NaN` case to `0`) is modelled by the explicit zero-denominator test. -/
def calculateClassificationMetrics (predictions actual : List ℚ) : ℚ × ℚ × ℚ :=
  let pairs := predictions.zip actual
  let tp : ℚ := (pairs.filter (fun p => p.1 = 1 ∧ p.2 = 1)).length
  let fp : ℚ := (pairs.filter (fun p => p.1 = 1 ∧ p.2 = 0)).length
  let fn : ℚ := (pairs.filter (fun p => p.1 = 0 ∧ p.2 = 1)).length
  let precision := if tp + fp = 0 then 0 else tp / (tp + fp)
  let «recall» := if tp + fn = 0 then 0 else tp / (tp + fn)
  let f1 := if precision + «recall» = 0 then 0
    else 2 * (precision * «recall») / (precision + «recall»)
  (precision, «recall», f1)

/-- Embeds `Number(q.toFixed(3))`: rounding to three decimal places. -/
def round3 (q : ℚ) : ℚ := (round (q * 1000) : ℤ) / 1000

/-- Fields of the value returned by `runClassification` on its main
(non-fallback) path that the reported metrics depend on: the full prediction
and mean-threshold label arrays and the four reported metrics. -/
structure ClassificationRun where
  predictions : List ℚ
  actualBinary : List ℚ
  accuracy : ℚ
  precision : ℚ
  «recall» : ℚ
  f1_score : ℚ

/-- Embeds `runClassification(processedData, model)` on the preprocessed
numeric matrix `data` (row-major, one inner list per dataset row).  The
`coins` oracle records the successive `Math.random() > 0.5` draws: draw `i`
decides prediction `i` (the `features.map(() => ...)` callback for row `i`).
The guard mirrors `data.length < 2 || data[0].length < 2`, and `none` models
the `generateFallbackResults` branch taken when that guard fails.  The target
is the last column (`row[row.length - 1]`), the threshold is
`ss.mean(target)`, `actualBinary` thresholds the target at its mean
(`val > threshold ? 1 : 0`), and the reported metrics are
`Number((...).toFixed(3))` of the metric helpers applied to the
prediction/label arrays. -/
def runClassification (coins : ℕ → Bool) (data : List (List ℚ)) : Option ClassificationRun :=
  if data.length < 2 ∨ (data.headD []).length < 2 then none
  else
    let target := data.map (fun row => row.getLastD 0)
    let threshold := ssMean target
    let predictions := (List.range data.length).map (fun i => if coins i then (1 : ℚ) else 0)
    let actualBinary := target.map (fun v => if threshold < v then (1 : ℚ) else 0)
    let m := calculateClassificationMetrics predictions actualBinary
    some
      { predictions := predictions
        actualBinary := actualBinary
        accuracy := round3 (calculateAccuracy predictions actualBinary)
        precision := round3 m.1
        «recall» := round3 m.2.1
        f1_score := round3 m.2.2 }

/-- C1: in the classification path of the native-ML variant of
`process-ml-model`, for every preprocessed numeric dataset with at least 2
rows and at least 2 numeric columns, each prediction is the coin flip
`Math.random() > 0.5` — independent of the feature values, witnessed by the
predictions being a function of the coin stream and the row count alone —
the `actual` binary labels are derived post hoc by thresholding the target
column at its mean, and the reported accuracy, precision, recall and
f1_score are computed by comparing exactly these two arrays. -/
theorem runClassification_coin_flip (coins : ℕ → Bool) (data : List (List ℚ))
    (hrows : 2 ≤ data.length) (hcols : 2 ≤ (data.headD []).length) :
    ∃ r, runClassification coins data = some r
      ∧ r.predictions = (List.range data.length).map (fun i => if coins i then (1 : ℚ) else 0)
      ∧ (∀ data2 : List (List ℚ), data2.length = data.length →
          2 ≤ (data2.headD []).length →
          ∃ r2, runClassification coins data2 = some r2 ∧ r2.predictions = r.predictions)
      ∧ r.actualBinary = (data.map (fun row => row.getLastD 0)).map
          (fun v => if ssMean (data.map (fun row => row.getLastD 0)) < v then (1 : ℚ) else 0)
      ∧ r.accuracy = round3 (calculateAccuracy r.predictions r.actualBinary)
      ∧ r.precision = round3 (calculateClassificationMetrics r.predictions r.actualBinary).1
      ∧ r.«recall» = round3 (calculateClassificationMetrics r.predictions r.actualBinary).2.1
      ∧ r.f1_score = round3 (calculateClassificationMetrics r.predictions r.actualBinary).2.2 := by
  have hguard : ¬(data.length < 2 ∨ (data.headD []).length < 2) := by
    push_neg
    exact ⟨hrows, hcols⟩
  refine ⟨_, by rw [runClassification, if_neg hguard], rfl, ?_, rfl, rfl, rfl, rfl, rfl⟩
  intro data2 hlen2 hcols2
  have hguard2 : ¬(data2.length < 2 ∨ (data2.headD []).length < 2) := by
    push_neg
    refine ⟨?_, hcols2⟩
    omega
  refine ⟨_, by rw [runClassification, if_neg hguard2], ?_⟩
  show (List.range data2.length).map (fun i => if coins i then (1 : ℚ) else 0)
      = (List.range data.length).map (fun i => if coins i then (1 : ℚ) else 0)
  rw [hlen2]

/-- Witness for C1 at the 2×2 dataset `[[1, 2], [3, 4]]` with the alternating
coin stream. -/
theorem runClassification_coin_flip_witness :
    ∃ r, runClassification (fun i => decide (i % 2 = 0)) [[(1 : ℚ), 2], [3, 4]] = some r
      ∧ r.predictions
        = (List.range 2).map (fun i => if decide (i % 2 = 0) then (1 : ℚ) else 0) := by
  obtain ⟨r, h1, h2, -⟩ := runClassification_coin_flip (fun i => decide (i % 2 = 0))
    [[(1 : ℚ), 2], [3, 4]] (by decide) (by decide)
  exact ⟨r, h1, h2⟩

end NativeML

namespace ForecastModel

/-! Embedding of the `process-forecast-model` edge function: the
`SimpleForecast` class and the `calculateR2` metric helper. -/

/-- Division with an explicit undefined branch: JS division produces the
non-finite `NaN`/`Infinity` when the divisor is zero, which the embedding
marks as `none`. -/
def div? (a b : ℚ) : Option ℚ := if b = 0 then none else some (a / b)

/-- Embeds `calculateR2(actual, predicted)`:
`actualMean = Σ actual / actual.length`, then over the first
`min(actual.length, predicted.length)` positions
`ssRes = Σ (actual[i] - predicted[i])²` and
`ssTot = Σ (actual[i] - actualMean)²`, returning `1 - ssRes/ssTot`.
Both divisions are taken through `div?`. -/
def calculateR2 (actual predicted : List ℚ) : Option ℚ :=
  match div? actual.sum actual.length with
  | none => none
  | some actualMean =>
    let len := min actual.length predicted.length
    let ssRes := (((actual.take len).zip (predicted.take len)).map
      (fun p => (p.1 - p.2) ^ 2)).sum
    let ssTot := ((actual.take len).map (fun a => (a - actualMean) ^ 2)).sum
    (div? ssRes ssTot).map (fun q => 1 - q)

/-- C3: `calculateR2` computes `1 - ssRes/ssTot` with no guard on the total
sum of squares: for every pair of equal-length vectors whose `actual` entries
are all equal, the divisor `ssTot` is zero and the undefined branch of the
embedded division is reached, so the result is the undefined value `none`. -/
theorem calculateR2_unguarded_zero_ssTot (actual predicted : List ℚ)
    (hlen : actual.length = predicted.length)
    (hconst : ∀ a ∈ actual, ∀ b ∈ actual, a = b) :
    calculateR2 actual predicted = none := by
  rcases hac : actual with _ | ⟨v, t⟩
  · rfl
  · have hne : (((v :: t).length : ℕ) : ℚ) ≠ 0 := by
      have hpos : (0 : ℚ) < ((v :: t).length : ℕ) := by
        exact_mod_cast Nat.succ_pos t.length
      exact ne_of_gt hpos
    have hall : ∀ a ∈ v :: t, a = v := by
      intro a ha
      exact hconst a (hac ▸ ha) v (hac ▸ List.mem_cons_self v t)
    have hsum : (v :: t).sum = (((v :: t).length : ℕ) : ℚ) * v := by
      rw [List.sum_eq_card_nsmul (v :: t) v hall, nsmul_eq_mul]
    have hmean : div? (v :: t).sum ((v :: t).length : ℕ) = some v := by
      rw [div?, if_neg hne, hsum]
      congr 1
      field_simp
    have hssTot : (((v :: t).take (min (v :: t).length predicted.length)).map
        (fun a => (a - v) ^ 2)).sum = 0 := by
      apply List.sum_eq_zero
      intro q hq
      obtain ⟨a, ha, rfl⟩ := List.mem_map.mp hq
      rw [hall a (List.mem_of_mem_take ha)]
      ring
    simp only [calculateR2, hmean]
    rw [hssTot]
    simp [div?]

/-- Witness for C3 at `actual = [3, 3]`, `predicted = [1, 2]`. -/
theorem calculateR2_unguarded_zero_ssTot_witness :
    ([(3 : ℚ), 3].length = [(1 : ℚ), 2].length)
    ∧ calculateR2 [(3 : ℚ), 3] [1, 2] = none :=
  ⟨rfl, calculateR2_unguarded_zero_ssTot [3, 3] [1, 2] rfl (by decide)⟩

/-- Embeds `SimpleForecast.calculateTrend`: the average first difference
`Σ (data[i] - data[i-1]) / (data.length - 1)`, and `0` when there are fewer
than 2 points. -/
def calculateTrend (data : List ℚ) : ℚ :=
  if data.length < 2 then 0
  else ((data.zip data.tail).map (fun p => p.2 - p.1)).sum / ((data.length : ℚ) - 1)

/-- Embeds the season length `Math.min(12, Math.floor(data.length / 4))` used
by `SimpleForecast.calculateSeasonal`. -/
def seasonLength (data : List ℚ) : ℕ := min 12 (data.length / 4)

/-- Embeds the inner loop of `SimpleForecast.calculateSeasonal` at position
`i`: the data values visited by `for (j = i; j < n; j += seasonLength)`,
i.e. (for `i < seasonLength`) the entries whose index is congruent to `i`
modulo the season length. -/
def seasonVals (data : List ℚ) (i : ℕ) : List ℚ :=
  (data.enum.filter (fun p => p.1 % seasonLength data = i)).map Prod.snd

/-- Embeds `SimpleForecast.calculateSeasonal`: one per-position average
(`count > 0 ? sum / count : 0`) for each position of the season. -/
def calculateSeasonal (data : List ℚ) : List ℚ :=
  (List.range (seasonLength data)).map (fun i =>
    if 0 < (seasonVals data i).length
    then (seasonVals data i).sum / (seasonVals data i).length
    else 0)

/-- Embeds one step of the loop body of `SimpleForecast.forecast`:
`lastValue + trend*(i+1) + (seasonal[i % seasonal.length] - mean(seasonal))`.
The two JS reads that can be undefined — `data[data.length - 1]` on an empty
series, and `seasonal[i % seasonal.length]` when `seasonal` is empty (where
`i % 0` is already `NaN`) — are threaded through `Option`, with `none`
standing for the resulting NaN forecast value. -/
def forecastStep (data : List ℚ) (i : ℕ) : Option ℚ :=
  match data.getLast? with
  | none => none
  | some lastValue =>
    let seasonal := calculateSeasonal data
    match seasonal.get? (i % seasonal.length) with
    | none => none
    | some s =>
      some (lastValue + calculateTrend data * (i + 1)
        + (s - seasonal.sum / seasonal.length))

/-- Embeds the `forecast` array built by `SimpleForecast.forecast(periods)`. -/
def forecastList (data : List ℚ) (periods : ℕ) : List (Option ℚ) :=
  (List.range periods).map (forecastStep data)

/-- Embeds the mean squared first difference
`Σ (data[i] - data[i-1])² / (data.length - 1)` of
`SimpleForecast.calculateVolatility` (the quantity under the square root);
`0` when there are fewer than 2 points. -/
def volatilitySq (data : List ℚ) : ℚ :=
  if data.length < 2 then 0
  else ((data.zip data.tail).map (fun p => (p.2 - p.1) ^ 2)).sum / ((data.length : ℚ) - 1)

/-- Embeds `SimpleForecast.calculateVolatility`: the root mean square of the
first differences, with `Math.sqrt` modelled by `Real.sqrt`. -/
noncomputable def calculateVolatility (data : List ℚ) : ℝ :=
  Real.sqrt (volatilitySq data)

/-- Embeds the per-step confidence radius of `SimpleForecast.forecast`:
`volatility * Math.sqrt(i + 1) * 1.96`. -/
noncomputable def confidenceWidth (data : List ℚ) (i : ℕ) : ℝ :=
  calculateVolatility data * Real.sqrt ((i : ℝ) + 1) * (196 / 100)

/-- Embeds the `confidence.upper` array of `SimpleForecast.forecast(periods)`:
`forecasted + confidence` (a NaN forecast stays NaN). -/
noncomputable def upperList (data : List ℚ) (periods : ℕ) : List (Option ℝ) :=
  (List.range periods).map (fun i =>
    (forecastStep data i).map (fun (v : ℚ) => (v : ℝ) + confidenceWidth data i))

/-- Embeds the `confidence.lower` array of `SimpleForecast.forecast(periods)`:
`forecasted - confidence`. -/
noncomputable def lowerList (data : List ℚ) (periods : ℕ) : List (Option ℝ) :=
  (List.range periods).map (fun i =>
    (forecastStep data i).map (fun (v : ℚ) => (v : ℝ) - confidenceWidth data i))

end ForecastModel

namespace ForecastModel

/-- C10: the forecast handler's minimum-length precondition (at least 2 data
points) does not guarantee well-defined output: for every series of length 2
or 3 — which passes the check — the season length `min(12, ⌊n/4⌋)` is `0`,
the seasonal array is empty, the loop computes the index `i % 0` and reads
past the empty array, and every returned forecast, upper and lower value is
the NaN value `none`, at every step of every horizon. -/
theorem forecast_nan_on_short_series (data : List ℚ)
    (hlen : data.length = 2 ∨ data.length = 3) (periods i : ℕ) (hi : i < periods) :
    2 ≤ data.length
    ∧ calculateSeasonal data = []
    ∧ i % (calculateSeasonal data).length = i
    ∧ (forecastList data periods).get? i = some none
    ∧ (upperList data periods).get? i = some none
    ∧ (lowerList data periods).get? i = some none := by
  have h2 : 2 ≤ data.length := by rcases hlen with h | h <;> omega
  have hL : seasonLength data = 0 := by
    rcases hlen with h | h <;> simp [seasonLength, h]
  have hseas : calculateSeasonal data = [] := by
    rw [calculateSeasonal, hL]
    rfl
  have hstep : forecastStep data i = none := by
    rw [forecastStep]
    cases hg : data.getLast? with
    | none => rfl
    | some lastValue => simp [hseas]
  refine ⟨h2, hseas, by rw [hseas]; simp, ?_, ?_, ?_⟩
  · rw [forecastList, List.get?_map, List.get?_range hi]
    show some (forecastStep data i) = some none
    rw [hstep]
  · rw [upperList, List.get?_map, List.get?_range hi]
    show some ((forecastStep data i).map
      (fun (v : ℚ) => (v : ℝ) + confidenceWidth data i)) = some none
    rw [hstep]
    rfl
  · rw [lowerList, List.get?_map, List.get?_range hi]
    show some ((forecastStep data i).map
      (fun (v : ℚ) => (v : ℝ) - confidenceWidth data i)) = some none
    rw [hstep]
    rfl

/-- Witness for C10 at the series `[1, 2]`, horizon 2, step 1. -/
theorem forecast_nan_on_short_series_witness :
    (([(1 : ℚ), 2] : List ℚ).length = 2 ∨ ([(1 : ℚ), 2] : List ℚ).length = 3)
    ∧ (forecastList [(1 : ℚ), 2] 2).get? 1 = some none :=
  ⟨Or.inl rfl,
    (forecast_nan_on_short_series [(1 : ℚ), 2] (Or.inl rfl) 2 1 (by decide)).2.2.2.1⟩

/-- Counterexample to C2 as stated: the series `[1, 2]` has length at least 2,
yet at horizon 1 the forecast entry at step 0 is the NaN value `none` — in
particular it is not the sum of the last value, the trend component and a
seasonal component (the seasonal array is empty). -/
theorem forecast_short_series_counterexample :
    2 ≤ ([(1 : ℚ), 2] : List ℚ).length
    ∧ (forecastList [(1 : ℚ), 2] 1).get? 0 = some none
    ∧ (forecastList [(1 : ℚ), 2] 1).get? 0
        ≠ some (some ([(1 : ℚ), 2].getLastD 0 + calculateTrend [(1 : ℚ), 2] * (0 + 1)
          + ((calculateSeasonal [(1 : ℚ), 2]).getD
              (0 % (calculateSeasonal [(1 : ℚ), 2]).length) 0
            - (calculateSeasonal [(1 : ℚ), 2]).sum
              / (calculateSeasonal [(1 : ℚ), 2]).length))) := by
  have hval : (forecastList [(1 : ℚ), 2] 1).get? 0 = some none := rfl
  refine ⟨by decide, hval, ?_⟩
  rw [hval]
  simp

/-- C2 (amended): for every numeric input series of length at least 4 — so
that the season length `min(12, ⌊n/4⌋)` is at least 1; series of length 2 or
3 pass the handler's length check but produce NaN output instead (see the
short-series counterexample) — and every horizon with step `i`,
`SimpleForecast.forecast` produces at step `i` the last value plus the naive
trend component (the average first difference of the series times `i+1`) plus
the naive seasonal component (the per-position seasonal average at position
`i mod L` minus the overall seasonal mean), with confidence bands obtained by
adding and subtracting `volatility * √(i+1) * 1.96`, where the volatility is
the root mean square of the first differences of the series. -/
theorem forecast_trend_seasonal_spec (data : List ℚ) (h4 : 4 ≤ data.length)
    (periods i : ℕ) (hi : i < periods) :
    1 ≤ (calculateSeasonal data).length
    ∧ (calculateSeasonal data).length = min 12 (data.length / 4)
    ∧ (∀ j, j < (calculateSeasonal data).length →
        0 < (seasonVals data j).length
        ∧ (calculateSeasonal data).getD j 0
          = (seasonVals data j).sum / (seasonVals data j).length)
    ∧ calculateTrend data
      = ((data.zip data.tail).map (fun p => p.2 - p.1)).sum / ((data.length : ℚ) - 1)
    ∧ volatilitySq data
      = ((data.zip data.tail).map (fun p => (p.2 - p.1) ^ 2)).sum
        / ((data.length : ℚ) - 1)
    ∧ calculateVolatility data = Real.sqrt (volatilitySq data)
    ∧ (forecastList data periods).get? i = some (some (
        data.getLastD 0 + calculateTrend data * (i + 1)
        + ((calculateSeasonal data).getD (i % (calculateSeasonal data).length) 0
            - (calculateSeasonal data).sum / (calculateSeasonal data).length)))
    ∧ (upperList data periods).get? i = some (some (
        ((data.getLastD 0 + calculateTrend data * (i + 1)
          + ((calculateSeasonal data).getD (i % (calculateSeasonal data).length) 0
              - (calculateSeasonal data).sum / (calculateSeasonal data).length) : ℚ) : ℝ)
        + calculateVolatility data * Real.sqrt ((i : ℝ) + 1) * (196 / 100)))
    ∧ (lowerList data periods).get? i = some (some (
        ((data.getLastD 0 + calculateTrend data * (i + 1)
          + ((calculateSeasonal data).getD (i % (calculateSeasonal data).length) 0
              - (calculateSeasonal data).sum / (calculateSeasonal data).length) : ℚ) : ℝ)
        - calculateVolatility data * Real.sqrt ((i : ℝ) + 1) * (196 / 100))) := by
  have hn0 : 0 < data.length := by omega
  have hL1 : 1 ≤ seasonLength data := by
    have h14 : 1 ≤ data.length / 4 := (Nat.le_div_iff_mul_le (by norm_num)).mpr (by omega)
    exact le_min (by norm_num) h14
  have hlenS : (calculateSeasonal data).length = seasonLength data := by
    rw [calculateSeasonal, List.length_map, List.length_range]
  have hLpos : 0 < (calculateSeasonal data).length := by omega
  have hvals : ∀ j, j < seasonLength data → 0 < (seasonVals data j).length := by
    intro j hj
    have hjn : j < data.length := by
      have hle : seasonLength data ≤ data.length / 4 := min_le_right _ _
      have hlt : data.length / 4 < data.length := Nat.div_lt_self hn0 (by norm_num)
      omega
    have hmem : (j, data.get ⟨j, hjn⟩)
        ∈ data.enum.filter (fun p => p.1 % seasonLength data = j) := by
      rw [List.mem_filter]
      refine ⟨List.mk_mem_enum_iff_getElem?.mpr ?_, ?_⟩
      · rw [List.getElem?_eq_getElem hjn]
        rfl
      · simp [Nat.mod_eq_of_lt hj]
    rw [seasonVals, List.length_map]
    exact List.length_pos_of_mem hmem
  have hgetSeason : ∀ j, j < seasonLength data →
      (calculateSeasonal data).getD j 0
        = (seasonVals data j).sum / (seasonVals data j).length := by
    intro j hj
    rw [calculateSeasonal, List.getD_eq_getElem?_getD, List.getElem?_map,
      List.getElem?_range hj]
    simp [hvals j hj]
  obtain ⟨lv, hlv⟩ : ∃ lv, data.getLast? = some lv :=
    Option.isSome_iff_exists.mp (List.getLast?_isSome.mpr (List.length_pos.mp hn0))
  have hlvD : data.getLastD 0 = lv := by
    rw [List.getLastD_eq_getLast?, hlv]
    rfl
  have hmodlt : i % (calculateSeasonal data).length < (calculateSeasonal data).length :=
    Nat.mod_lt _ hLpos
  have hsget : (calculateSeasonal data).get? (i % (calculateSeasonal data).length)
      = some ((calculateSeasonal data).getD (i % (calculateSeasonal data).length) 0) := by
    rw [List.get?_eq_getElem?, List.getElem?_eq_getElem hmodlt,
      List.getD_eq_getElem?_getD, List.getElem?_eq_getElem hmodlt]
    rfl
  have hstep : forecastStep data i = some (
      data.getLastD 0 + calculateTrend data * (i + 1)
      + ((calculateSeasonal data).getD (i % (calculateSeasonal data).length) 0
          - (calculateSeasonal data).sum / (calculateSeasonal data).length)) := by
    rw [forecastStep, hlv]
    simp only [hsget, hlvD]
  refine ⟨by omega, by rw [hlenS]; rfl,
    fun j hj => ⟨hvals j (by omega), hgetSeason j (by omega)⟩,
    by rw [calculateTrend, if_neg (by omega)],
    by rw [volatilitySq, if_neg (by omega)],
    rfl, ?_, ?_, ?_⟩
  · rw [forecastList, List.get?_map, List.get?_range hi]
    show some (forecastStep data i) = _
    rw [hstep]
  · rw [upperList, List.get?_map, List.get?_range hi]
    show some ((forecastStep data i).map
      (fun (v : ℚ) => (v : ℝ) + confidenceWidth data i)) = _
    rw [hstep]
    rfl
  · rw [lowerList, List.get?_map, List.get?_range hi]
    show some ((forecastStep data i).map
      (fun (v : ℚ) => (v : ℝ) - confidenceWidth data i)) = _
    rw [hstep]
    rfl

/-- Witness for the amended C2 at the series `[0, 2, 4, 6]` (season length 1),
horizon 1, step 0. -/
theorem forecast_trend_seasonal_spec_witness :
    4 ≤ ([(0 : ℚ), 2, 4, 6] : List ℚ).length
    ∧ (forecastList [(0 : ℚ), 2, 4, 6] 1).get? 0 = some (some (
        [(0 : ℚ), 2, 4, 6].getLastD 0 + calculateTrend [(0 : ℚ), 2, 4, 6] * (0 + 1)
        + ((calculateSeasonal [(0 : ℚ), 2, 4, 6]).getD
            (0 % (calculateSeasonal [(0 : ℚ), 2, 4, 6]).length) 0
          - (calculateSeasonal [(0 : ℚ), 2, 4, 6]).sum
            / (calculateSeasonal [(0 : ℚ), 2, 4, 6]).length))) :=
  ⟨by decide,
    (forecast_trend_seasonal_spec [(0 : ℚ), 2, 4, 6] (by decide) 1 0
      (by decide)).2.2.2.2.2.2.1⟩

end ForecastModel

namespace NativeML

/-- Embeds the `distance(a, b)` helper of `KMeans` up to the final
`Math.sqrt`: the sum `Σ (a[i] - (b[i] || 0))²` over the indices of `a`.
Squaring is strictly monotone on nonnegative reals, so nearest-centroid
comparisons made on this quantity agree with the source's comparisons of
the square-rooted distances. -/
def distSq : List ℚ → List ℚ → ℚ
  | [], _ => 0
  | a :: as, bs => (a - bs.headD 0) ^ 2 + distSq as bs.tail

/-- Embeds `KMeans.nearest(point)`: a scan over the centroids keeping the
first index realising the strictly smallest distance (`minDist` starts at
`Infinity`, modelled by `none`; `nearestIdx` starts at `0`).  Only the index
component of the returned pair is used by the constructor. -/
def nearestIdx (cents : List (List ℚ)) (point : List ℚ) : ℕ :=
  (cents.enum.foldl (fun acc ci =>
    match acc.2 with
    | none => (ci.1, some (distSq point ci.2))
    | some m =>
      if distSq point ci.2 < m then (ci.1, some (distSq point ci.2)) else acc)
    (0, none)).1

/-- Embeds the `centroid(points)` helper of `KMeans`: the per-dimension mean
over `points[0].length` dimensions, missing entries reading as `0`
(`point[i] || 0`); the empty list for no points. -/
def centroidOf (points : List (List ℚ)) : List ℚ :=
  match points with
  | [] => []
  | p :: _ =>
    (List.range p.length).map (fun i =>
      ((points.map (fun q => q.getD i 0)).sum) / points.length)

/-- Embeds `data.filter((_, idx) => assignments[idx] === i)` inside the
`KMeans` constructor loop, with the assignments recomputed from the current
centroids (`data.map(point => this.nearest(point)[1])`). -/
def clusterPoints (data : List (List ℚ)) (cents : List (List ℚ)) (i : ℕ) :
    List (List ℚ) :=
  (data.zip (data.map (fun p => nearestIdx cents p))).filterMap
    (fun pa => if pa.2 = i then some pa.1 else none)

/-- Embeds one iteration of the `KMeans` constructor loop: assignments are
computed with the current centroids, then each of the `k` centroids is
replaced by the mean of its assigned points and kept unchanged when no point
is assigned to it (the `clusterPoints.length > 0` test). -/
def kmeansStep (data : List (List ℚ)) (k : ℕ) (cents : List (List ℚ)) :
    List (List ℚ) :=
  (List.range k).map (fun i =>
    if 0 < (clusterPoints data cents i).length
    then centroidOf (clusterPoints data cents i)
    else cents.getD i [])

/-- Embeds the random centroid seeding of the `KMeans` constructor: centroid
`i` is a copy of the data point at the random index
`Math.floor(Math.random() * data.length)`, supplied here by the `seeds`
oracle reduced modulo `data.length` (the range of the source draw). -/
def initCentroids (data : List (List ℚ)) (k : ℕ) (seeds : ℕ → ℕ) :
    List (List ℚ) :=
  (List.range k).map (fun i => data.getD (seeds i % data.length) [])

/-- Embeds the `KMeans(data, k)` constructor: the early return leaves the
centroids empty for empty data or `k ≤ 0`; otherwise the update loop runs
for exactly 10 iterations (`for (let iter = 0; iter < 10; iter++)`) with no
convergence test. -/
def kmeansCentroids (data : List (List ℚ)) (k : ℕ) (seeds : ℕ → ℕ) :
    List (List ℚ) :=
  if data.length = 0 ∨ k = 0 then []
  else (List.range 10).foldl (fun cents _ => kmeansStep data k cents)
    (initCentroids data k seeds)

/-- Embeds the final `clusters` field of `KMeans`: each centroid paired with
the number of points finally assigned to it (possibly zero). -/
def kmeansClusters (data : List (List ℚ)) (k : ℕ) (seeds : ℕ → ℕ) :
    List (List ℚ × ℕ) :=
  let cents := kmeansCentroids data k seeds
  let finalAssignments := data.map (fun p => nearestIdx cents p)
  cents.enum.map (fun ci =>
    (ci.2, (finalAssignments.filter (fun a => a = ci.1)).length))

theorem foldl_const_eq_iterate {α : Type} (g : α → α) (n : ℕ) (x : α) :
    (List.range n).foldl (fun a _ => g a) x = g^[n] x := by
  induction n with
  | zero => rfl
  | succ m ih =>
      rw [List.range_succ, List.foldl_append, ih, List.foldl_cons, List.foldl_nil,
        Function.iterate_succ_apply']

theorem zip_self_map {α β : Type} (l : List α) (f : α → β) :
    l.zip (l.map f) = l.map (fun x => (x, f x)) := by
  induction l with
  | nil => rfl
  | cons a t ih => simp [ih]

theorem kmeansStep_length (data : List (List ℚ)) (k : ℕ)
    (cents : List (List ℚ)) : (kmeansStep data k cents).length = k := by
  rw [kmeansStep, List.length_map, List.length_range]

/-- C4: for every non-empty numeric dataset and every `k ≥ 1`, the `KMeans`
constructor seeds each of the `k` centroids by picking the data point chosen
by the random draw, then runs exactly 10 assignment/centroid-update
iterations — the result is the 10-fold iterate of the update step applied to
the seeded centroids, with no convergence check cutting it short — and
performs no empty-cluster handling: an update leaves a centroid with no
assigned points unchanged, and the final cluster report always lists all `k`
clusters, empty ones included. -/
theorem kmeans_fixed_iterations (data : List (List ℚ)) (k : ℕ) (seeds : ℕ → ℕ)
    (hd : data ≠ []) (hk : 1 ≤ k) :
    (∀ i, i < k →
      (initCentroids data k seeds).get? i = data.get? (seeds i % data.length)
      ∧ (initCentroids data k seeds).getD i [] ∈ data)
    ∧ kmeansCentroids data k seeds
      = (fun cents => kmeansStep data k cents)^[10] (initCentroids data k seeds)
    ∧ (∀ cents i, cents.length = k → i < k →
        (∀ p ∈ data, nearestIdx cents p ≠ i) →
        (kmeansStep data k cents).get? i = cents.get? i)
    ∧ (kmeansClusters data k seeds).length = k := by
  have hdl : 0 < data.length := List.length_pos.mpr hd
  have hmod : ∀ i, seeds i % data.length < data.length :=
    fun i => Nat.mod_lt _ hdl
  have hguard : ¬(data.length = 0 ∨ k = 0) := by
    push_neg
    omega
  have hinit : ∀ i, i < k →
      (initCentroids data k seeds).getD i [] = data.getD (seeds i % data.length) [] := by
    intro i hi
    rw [initCentroids, List.getD_eq_getElem?_getD, List.getElem?_map,
      List.getElem?_range hi]
    rfl
  have hiter : kmeansCentroids data k seeds
      = (fun cents => kmeansStep data k cents)^[10] (initCentroids data k seeds) := by
    rw [kmeansCentroids, if_neg hguard]
    exact foldl_const_eq_iterate _ 10 _
  refine ⟨?_, hiter, ?_, ?_⟩
  · intro i hi
    constructor
    · rw [initCentroids, List.get?_eq_getElem?, List.getElem?_map,
        List.getElem?_range hi, List.get?_eq_getElem?,
        List.getElem?_eq_getElem (hmod i)]
      show some (data.getD (seeds i % data.length) []) = _
      rw [List.getD_eq_getElem?_getD, List.getElem?_eq_getElem (hmod i)]
      rfl
    · rw [hinit i hi, List.getD_eq_getElem?_getD, List.getElem?_eq_getElem (hmod i)]
      exact List.get_mem data _ _
  · intro cents i hlen hi hno
    have hcp : clusterPoints data cents i = [] := by
      rw [clusterPoints, zip_self_map, List.filterMap_map]
      apply List.filterMap_eq_nil.mpr
      intro p hp
      show (if nearestIdx cents p = i then some p else none) = none
      rw [if_neg (hno p hp)]
    have h1 : (kmeansStep data k cents).get? i = some (cents.getD i []) := by
      rw [kmeansStep, List.get?_eq_getElem?, List.getElem?_map,
        List.getElem?_range hi]
      show some (if 0 < (clusterPoints data cents i).length
        then centroidOf (clusterPoints data cents i) else cents.getD i []) = _
      rw [hcp]
      rfl
    have hic : i < cents.length := by omega
    rw [h1, List.get?_eq_getElem?, List.getElem?_eq_getElem hic,
      List.getD_eq_getElem?_getD, List.getElem?_eq_getElem hic]
    rfl
  · have hck : (kmeansCentroids data k seeds).length = k := by
      rw [hiter, show (10 : ℕ) = 9 + 1 from rfl, Function.iterate_succ_apply']
      exact kmeansStep_length data k _
    rw [kmeansClusters]
    simp only [List.length_map, List.enum_length]
    exact hck

/-- Witness for C4 at the dataset `[[0], [1]]`, `k = 1`, constant seeding. -/
theorem kmeans_fixed_iterations_witness :
    ([[(0 : ℚ)], [1]] : List (List ℚ)) ≠ []
    ∧ (kmeansClusters [[(0 : ℚ)], [1]] 1 (fun j => 0)).length = 1 :=
  ⟨by decide,
    (kmeans_fixed_iterations [[(0 : ℚ)], [1]] 1 (fun j => 0)
      (by decide) (by decide)).2.2.2⟩

end NativeML

namespace MLModelHandler

/-! Embedding of the control flow of the `process-ml-model` request handler
(the `serve(async (req) => ...)` body): the sequence of `ml_models` row
updates it issues and the HTTP status it returns, as a function of where the
invocation first fails.  External effects (authentication, JSON body
parsing, the database fetch, the AI call, the final save) are modelled by an
explicit outcome naming the first failing step; the database writes are
recorded in program order. -/

/-- One `supabase.from('ml_models').update(...)` call: the `status` string
and/or `training_progress` value it writes. -/
structure DBWrite where
  newStatus : Option String
  newProgress : Option ℕ
deriving DecidableEq, Repr

/-- Where a `process-ml-model` invocation first fails.  `authFail` is the
`getUser` error (early 401 return), `badJson` a `req.json()` parse throw,
`noModelId` the missing-id early 400 return, `modelNotFound` the failed
model fetch (early 404 return), `aiFail` a non-ok Gemini response (thrown),
`saveFail` a failed final update (thrown), `success` a full run. -/
inductive MLOutcome where
  | authFail
  | badJson
  | noModelId
  | modelNotFound
  | aiFail
  | saveFail
  | success
deriving DecidableEq, Repr

/-- Result of one invocation: the HTTP status of the response and the
`ml_models` row updates that took effect, in program order. -/
structure MLResponse where
  httpStatus : ℕ
  writes : List DBWrite
deriving DecidableEq, Repr

/-- Embeds the `catch` block's best-effort status flip: it re-reads the
request body (`await req.json()`) to recover the model id.  When the body
was already consumed by the `try` block — which is the case on every path
that reaches the catch — the re-read throws, the inner catch swallows the
error, and no write is issued; only with a still-readable body carrying a
model id would `{ status: 'error', training_progress: 0 }` be written. -/
def catchBlockWrites (bodyConsumed : Bool) (modelIdPresent : Bool) : List DBWrite :=
  if bodyConsumed then []
  else if modelIdPresent then [⟨some "error", some 0⟩]
  else []

/-- Embeds the handler body: the early returns (401/400/404), the progress
checkpoint writes at 10/30/70/90, the final completed write at 100, and the
top-level catch (generic 500, best-effort status flip with the body already
consumed). -/
def processMLModel (o : MLOutcome) : MLResponse :=
  match o with
  | .authFail => ⟨401, []⟩
  | .badJson => ⟨500, catchBlockWrites true true⟩
  | .noModelId => ⟨400, []⟩
  | .modelNotFound => ⟨404, []⟩
  | .aiFail => ⟨500, [⟨some "training", some 10⟩, ⟨none, some 30⟩]
      ++ catchBlockWrites true true⟩
  | .saveFail => ⟨500, [⟨some "training", some 10⟩, ⟨none, some 30⟩,
      ⟨none, some 70⟩, ⟨none, some 90⟩] ++ catchBlockWrites true true⟩
  | .success => ⟨200, [⟨some "training", some 10⟩, ⟨none, some 30⟩,
      ⟨none, some 70⟩, ⟨none, some 90⟩, ⟨some "completed", some 100⟩]⟩

/-- C7: every value the handler writes to `training_progress` is an integer
in the range 0–100, written at fixed checkpoints within a single invocation;
a single successful invocation writes the strictly increasing sequence
`10, 30, 70, 90, 100`, and the final write that sets `training_progress` to
100 also sets the status to `completed`. -/
theorem training_progress_checkpoints :
    (∀ o : MLOutcome, ∀ w ∈ (processMLModel o).writes,
      ∀ p, w.newProgress = some p → p ≤ 100)
    ∧ ((processMLModel .success).writes.filterMap (fun w => w.newProgress))
      = [10, 30, 70, 90, 100]
    ∧ List.Chain' (fun a b => a < b)
        ((processMLModel .success).writes.filterMap (fun w => w.newProgress))
    ∧ ((processMLModel .success).writes.getLast?).map
        (fun w => (w.newStatus, w.newProgress))
      = some (some "completed", some 100) := by
  refine ⟨?_, rfl, ?_, rfl⟩
  · have hall : ∀ o : MLOutcome, (processMLModel o).writes.all
        (fun w => match w.newProgress with
          | none => true
          | some p => decide (p ≤ 100)) = true := by
      intro o
      cases o <;> decide
    intro o w hw p hp
    have hw2 := List.all_eq_true.mp (hall o) w hw
    rw [hp] at hw2
    exact of_decide_eq_true hw2
  · rw [show (processMLModel .success).writes.filterMap (fun w => w.newProgress)
        = [10, 30, 70, 90, 100] from rfl]
    simp only [List.chain'_cons, List.chain'_singleton]
    norm_num

/-- Witness for C7: the first checkpoint write of a successful run is in
range. -/
theorem training_progress_checkpoints_witness :
    (⟨some "training", some 10⟩ : DBWrite) ∈ (processMLModel .success).writes
    ∧ 10 ≤ 100 :=
  ⟨by decide,
    training_progress_checkpoints.1 .success ⟨some "training", some 10⟩
      (by decide) 10 rfl⟩

/-- C6: every invocation answers with one of the generic status codes 200,
400, 401, 404, 500; every path that reaches the top-level catch (a throw
after the request body has been read) returns the generic 500 response while
issuing no `status: 'error'` write — the re-read of the consumed body fails
and the flip is silently skipped — although the very same catch block would
write `{ status: 'error', training_progress: 0 }` were the body still
readable. -/
theorem error_handling_best_effort :
    (∀ o : MLOutcome, (processMLModel o).httpStatus = 200
      ∨ (processMLModel o).httpStatus ∈ [400, 401, 404, 500])
    ∧ (∀ o : MLOutcome, o = .badJson ∨ o = .aiFail ∨ o = .saveFail →
        (processMLModel o).httpStatus = 500
        ∧ ∀ w ∈ (processMLModel o).writes, w.newStatus ≠ some "error")
    ∧ (∀ m : Bool, catchBlockWrites true m = [])
    ∧ catchBlockWrites false true = [⟨some "error", some 0⟩] := by
  refine ⟨?_, ?_, ?_, rfl⟩
  · intro o
    cases o <;> simp [processMLModel, catchBlockWrites]
  · intro o ho
    rcases ho with h | h | h <;> subst h <;> exact ⟨rfl, by decide⟩
  · intro m
    rfl

/-- Witness for C6 at the failed-AI-call outcome. -/
theorem error_handling_best_effort_witness :
    (processMLModel .aiFail).httpStatus = 500
    ∧ ∀ w ∈ (processMLModel .aiFail).writes, w.newStatus ≠ some "error" :=
  error_handling_best_effort.2.1 .aiFail (Or.inr (Or.inl rfl))

end MLModelHandler

namespace MLStudioClient

/-! Embedding of the browser-side training loop of the ML studio page
(`handleStartTraining`): after invoking the edge function it starts

* a progress animation (`progressInterval`, every 1000 ms): add 5 to the
  displayed progress, capping at 95 and stopping the animation there;
* a completion poll (`checkCompletion`, every 2000 ms): re-read the model
  row and react to the `status` column; and
* a 120000 ms timeout that clears both intervals and is meant to declare
  success if the run is still in progress.

The component state touched by this code (`trainingProgress`, `isTraining`,
the success/error toasts, and whether each interval is still registered) is
a record; one `secondStep` is one second of elapsed time. -/

structure ClientState where
  trainingProgress : ℕ
  isTraining : Bool
  successToast : Bool
  errorToast : Bool
  checkActive : Bool
  progActive : Bool
deriving DecidableEq, Repr

/-- State right after `handleStartTraining` has started the intervals:
`setIsTraining(true)`, `setTrainingProgress(0)`, no toast yet. -/
def initialState : ClientState :=
  ⟨0, true, false, false, true, true⟩

/-- Embeds one firing of `progressInterval`:
`prev >= 95 ? (clearInterval; 95) : prev + 5`. -/
def progressTick (s : ClientState) : ClientState :=
  if s.progActive then
    if 95 ≤ s.trainingProgress then { s with trainingProgress := 95, progActive := false }
    else { s with trainingProgress := s.trainingProgress + 5 }
  else s

/-- Embeds one firing of `checkCompletion` observing the `status` column:
`completed` clears both intervals, sets progress 100, ends training and
toasts success; `error` clears both intervals, ends training, resets
progress to 0 and toasts an error; anything else leaves the state alone. -/
def pollTick (observed : String) (s : ClientState) : ClientState :=
  if s.checkActive then
    if observed = "completed" then
      ⟨100, false, true, s.errorToast, false, false⟩
    else if observed = "error" then
      ⟨0, false, s.successToast, true, false, false⟩
    else s
  else s

/-- Embeds the 120000 ms `setTimeout` callback: both intervals are cleared
unconditionally, then `if (isTraining)` guards the success path
(`setTrainingProgress(100)`, `setIsTraining(false)`, success toast).  The
`isTraining` read is the value captured by the callback's closure, passed
here explicitly. -/
def timeoutFires (capturedIsTraining : Bool) (s : ClientState) : ClientState :=
  let s2 := { s with checkActive := false, progActive := false }
  if capturedIsTraining then
    { s2 with trainingProgress := 100, isTraining := false, successToast := true }
  else s2

/-- Value of `isTraining` captured by the timeout callback's closure.  The
callback is created inside the `handleStartTraining` invocation, whose
closure environment binds `isTraining` to the value it had in the render
that produced the click handler; the start button is only rendered under
`!isTraining`, so that captured value is `false` (the later
`setIsTraining(true)` changes the component state of subsequent renders,
not this binding). -/
def capturedIsTraining : Bool := false

/-- One second of elapsed time: the 1000 ms progress animation fires every
second, the 2000 ms poll fires on even seconds, reading the `status` column
through the `status` oracle (poll number `t / 2`). -/
def secondStep (status : ℕ → String) (s : ClientState) (t : ℕ) : ClientState :=
  let s1 := progressTick s
  if t % 2 = 0 then pollTick (status (t / 2)) s1 else s1

/-- The client state after `n` seconds of polling. -/
def clientRun (status : ℕ → String) (n : ℕ) : ClientState :=
  (List.range n).foldl (fun s t => secondStep status s (t + 1)) initialState

/-- The client state after the 120000 ms timeout fires (119 full seconds of
interval activity precede it), with the timeout guard reading the captured
`isTraining` binding. -/
def clientAtTimeout (status : ℕ → String) : ClientState :=
  timeoutFires capturedIsTraining (clientRun status 119)

set_option maxRecDepth 40000 in
/-- C8 (behaviour at the failing input): the polling loop does re-read the
status every 2000 ms and reacts to `completed` (a run whose fourth poll
observes `completed` toasts success with progress 100), and the timeout
branch guarded by a live `isTraining` value would set progress 100 and toast
success; but the guard reads the closure-captured `isTraining`, which is
`false`, so when the status never reaches `completed`/`error` within the two
minutes the timeout merely stops both intervals: no success is reported,
the displayed progress stays at the 95 cap, and the component remains in the
training state. -/
theorem timeout_success_branch_unreachable :
    capturedIsTraining = false
    ∧ (clientAtTimeout (fun _ => "processing")).successToast = false
    ∧ (clientAtTimeout (fun _ => "processing")).trainingProgress = 95
    ∧ (clientAtTimeout (fun _ => "processing")).isTraining = true
    ∧ (clientAtTimeout (fun _ => "processing")).checkActive = false
    ∧ (clientAtTimeout (fun _ => "processing")).progActive = false
    ∧ (timeoutFires true (clientRun (fun _ => "processing") 119)).successToast = true
    ∧ (timeoutFires true (clientRun (fun _ => "processing") 119)).trainingProgress = 100
    ∧ (clientRun (fun j => if j = 3 then "completed" else "processing") 10).successToast
      = true
    ∧ (clientRun (fun j => if j = 3 then "completed" else "processing") 10).trainingProgress
      = 100 := by
  decide

end MLStudioClient

namespace RecommendationModel

/-- Association-list lookup in insertion order: models `Map.get` on the JS
`Map`s used by `SimpleRecommender` (rating rows, the user-item matrix and
the score accumulator of `getRecommendations`). -/
def lookupBy {α : Type} (l : List (String × α)) (k : String) : Option α :=
  (l.find? (fun e => e.1 = k)).map Prod.snd

/-- One user's rating row: `(item, rating)` pairs in `Map` insertion order;
`addRating` keeps the items of a row distinct. -/
abbrev Ratings := List (String × ℚ)

/-- The `userItemMatrix`: `(user, ratings)` pairs in `Map` insertion order;
`addRating` keeps the users distinct. -/
abbrev UserMatrix := List (String × Ratings)

/-- Embeds `this.userItemMatrix.get(user)`. -/
def ratingsOf (m : UserMatrix) (u : String) : Option Ratings := lookupBy m u

theorem lookupBy_nil {α : Type} (k : String) : lookupBy ([] : List (String × α)) k = none := rfl

theorem lookupBy_cons {α : Type} (e : String × α) (l : List (String × α)) (k : String) :
    lookupBy (e :: l) k = if e.1 = k then some e.2 else lookupBy l k := by
  by_cases h : e.1 = k
  · simp [lookupBy, List.find?_cons_of_pos, h]
  · simp [lookupBy, List.find?_cons_of_neg, h]

theorem lookupBy_eq_none_of_not_mem {α : Type} {l : List (String × α)} {k : String}
    (h : k ∉ l.map Prod.fst) : lookupBy l k = none := by
  rw [lookupBy, List.find?_eq_none.mpr, Option.map_none']
  intro e he
  simp only [decide_eq_true_eq]
  intro hk
  exact h (hk ▸ List.mem_map_of_mem Prod.fst he)

theorem isSome_lookupBy_of_mem {α : Type} {l : List (String × α)} {e : String × α}
    (h : e ∈ l) : (lookupBy l e.1).isSome = true := by
  rw [lookupBy, Option.isSome_map']
  rw [List.find?_isSome]
  exact ⟨e, h, by simp⟩

theorem lookupBy_of_mem_nodup {α : Type} {l : List (String × α)} {e : String × α}
    (hnd : (l.map Prod.fst).Nodup) (h : e ∈ l) : lookupBy l e.1 = some e.2 := by
  induction l with
  | nil => cases h
  | cons a t ih =>
      rcases List.mem_cons.mp h with rfl | ht
      · rw [lookupBy_cons, if_pos rfl]
      · rw [lookupBy_cons]
        have hnd2 : (t.map Prod.fst).Nodup := (List.nodup_cons.mp hnd).2
        have ha : a.1 ∉ t.map Prod.fst := (List.nodup_cons.mp hnd).1
        have hne : a.1 ≠ e.1 := by
          intro hq
          exact ha (hq ▸ List.mem_map_of_mem Prod.fst ht)
        rw [if_neg hne]
        exact ih hnd2 ht

end RecommendationModel

namespace RecommendationModel

/-- Embeds `itemScores.set(item, (itemScores.get(item) || 0) + v)`: update
the entry in place or append a new one, preserving `Map` insertion order. -/
def addScore : List (String × ℝ) → String → ℝ → List (String × ℝ)
  | [], it, v => [(it, v)]
  | e :: rest, it, v =>
    if e.1 = it then (e.1, e.2 + v) :: rest else e :: addScore rest it v

theorem lookupBy_addScore_self (sc : List (String × ℝ)) (it : String) (v : ℝ) :
    lookupBy (addScore sc it v) it = some ((lookupBy sc it).getD 0 + v) := by
  induction sc with
  | nil => simp [addScore, lookupBy_cons, lookupBy_nil]
  | cons e rest ih =>
      by_cases h : e.1 = it
      · rw [addScore, if_pos h, lookupBy_cons, if_pos h, lookupBy_cons, if_pos h]
        rfl
      · rw [addScore, if_neg h, lookupBy_cons, if_neg h, lookupBy_cons, if_neg h]
        exact ih

theorem lookupBy_addScore_ne (sc : List (String × ℝ)) (it k : String) (v : ℝ)
    (hk : k ≠ it) : lookupBy (addScore sc it v) k = lookupBy sc k := by
  induction sc with
  | nil => simp [addScore, lookupBy_cons, lookupBy_nil, Ne.symm hk]
  | cons e rest ih =>
      by_cases h : e.1 = it
      · have hek : ¬(e.1 = k) := fun hq => hk (hq ▸ h)
        rw [addScore, if_pos h, lookupBy_cons, lookupBy_cons]
        simp [hek]
      · rw [addScore, if_neg h, lookupBy_cons, lookupBy_cons]
        by_cases h2 : e.1 = k
        · rw [if_pos h2, if_pos h2]
        · rw [if_neg h2, if_neg h2]
          exact ih

theorem addScore_keys (sc : List (String × ℝ)) (it : String) (v : ℝ) :
    (addScore sc it v).map Prod.fst
      = if (lookupBy sc it).isSome then sc.map Prod.fst
        else sc.map Prod.fst ++ [it] := by
  induction sc with
  | nil => simp [addScore, lookupBy_nil]
  | cons e rest ih =>
      by_cases h : e.1 = it
      · rw [addScore, if_pos h]
        have : (lookupBy (e :: rest) it).isSome = true := by
          rw [lookupBy_cons, if_pos h]
          rfl
        rw [this]
        simp
      · rw [addScore, if_neg h, lookupBy_cons, if_neg h]
        by_cases h2 : (lookupBy rest it).isSome
        · simp only [List.map_cons, ih, h2, if_pos]
        · simp only [List.map_cons, ih, eq_self_iff_true]
          rw [if_neg h2, if_neg h2]
          rfl

theorem addScore_keys_nodup {sc : List (String × ℝ)} (it : String) (v : ℝ)
    (hnd : (sc.map Prod.fst).Nodup) : ((addScore sc it v).map Prod.fst).Nodup := by
  rw [addScore_keys]
  by_cases h : (lookupBy sc it).isSome
  · rw [if_pos h]
    exact hnd
  · rw [if_neg h]
    have hnotmem : it ∉ sc.map Prod.fst := by
      intro hm
      obtain ⟨e, he, hk⟩ := List.mem_map.mp hm
      exact h (hk ▸ isSome_lookupBy_of_mem he)
    exact ((List.perm_append_singleton it _).nodup_iff).mpr
      (List.nodup_cons.mpr ⟨hnotmem, hnd⟩)

theorem mem_addScore_keys {sc : List (String × ℝ)} {it : String} {v : ℝ}
    {e : String × ℝ} (h : e ∈ addScore sc it v) :
    e.1 = it ∨ e.1 ∈ sc.map Prod.fst := by
  have hk : e.1 ∈ (addScore sc it v).map Prod.fst := List.mem_map_of_mem Prod.fst h
  rw [addScore_keys] at hk
  by_cases hs : (lookupBy sc it).isSome
  · rw [if_pos hs] at hk
    exact Or.inr hk
  · rw [if_neg hs] at hk
    rcases List.mem_append.mp hk with hk | hk
    · exact Or.inr hk
    · exact Or.inl (List.mem_singleton.mp hk)

end RecommendationModel

namespace RecommendationModel

/-- Embeds the inner loop of `getRecommendations` for one similar user:
fold the user's rating row into the score map, scoring only items the
target's row `tr` does not contain. -/
def scoreUserRatings (tr : Ratings) (sim : ℝ) (r : Ratings)
    (sc : List (String × ℝ)) : List (String × ℝ) :=
  r.foldl (fun sc2 e =>
    if (lookupBy tr e.1).isSome then sc2
    else addScore sc2 e.1 (sim * (e.2 : ℝ))) sc

theorem scoreUserRatings_nil (tr : Ratings) (sim : ℝ) (sc : List (String × ℝ)) :
    scoreUserRatings tr sim [] sc = sc := rfl

theorem scoreUserRatings_cons (tr : Ratings) (sim : ℝ) (e : String × ℚ)
    (r : Ratings) (sc : List (String × ℝ)) :
    scoreUserRatings tr sim (e :: r) sc
      = scoreUserRatings tr sim r
        (if (lookupBy tr e.1).isSome then sc else addScore sc e.1 (sim * (e.2 : ℝ))) := by
  rw [scoreUserRatings, List.foldl_cons]
  rfl

theorem lookupBy_scoreUserRatings (tr : Ratings) (sim : ℝ) (r : Ratings)
    (hnd : (r.map Prod.fst).Nodup) (sc : List (String × ℝ)) (it : String) :
    lookupBy (scoreUserRatings tr sim r sc) it
      = if (lookupBy tr it).isSome then lookupBy sc it
        else
          match lookupBy r it with
          | none => lookupBy sc it
          | some rating => some ((lookupBy sc it).getD 0 + sim * (rating : ℝ)) := by
  induction r generalizing sc with
  | nil =>
      rw [scoreUserRatings_nil, lookupBy_nil]
      by_cases h : (lookupBy tr it).isSome
      · rw [if_pos h]
      · rw [if_neg h]
  | cons e r2 ih =>
      have hnd2 : (r2.map Prod.fst).Nodup := (List.nodup_cons.mp hnd).2
      have hekeys : e.1 ∉ r2.map Prod.fst := (List.nodup_cons.mp hnd).1
      rw [scoreUserRatings_cons, ih hnd2, lookupBy_cons]
      by_cases hit : (lookupBy tr it).isSome
      · rw [if_pos hit, if_pos hit]
        by_cases hetr : (lookupBy tr e.1).isSome
        · rw [if_pos hetr]
        · rw [if_neg hetr]
          have hee : e.1 ≠ it := fun hq => hetr (hq ▸ hit)
          exact lookupBy_addScore_ne sc e.1 it _ (Ne.symm hee)
      · rw [if_neg hit, if_neg hit]
        by_cases heq : e.1 = it
        · rw [if_pos heq]
          have hetr : ¬(lookupBy tr e.1).isSome = true := heq ▸ hit
          rw [if_neg hetr]
          have hr2 : lookupBy r2 it = none :=
            lookupBy_eq_none_of_not_mem (heq ▸ hekeys)
          rw [hr2]
          rw [heq]
          exact lookupBy_addScore_self sc it _
        · rw [if_neg heq]
          by_cases hetr : (lookupBy tr e.1).isSome
          · rw [if_pos hetr]
          · rw [if_neg hetr]
            rw [lookupBy_addScore_ne sc e.1 it _ (Ne.symm heq)]

theorem scoreUserRatings_keys_not_rated (tr : Ratings) (sim : ℝ) (r : Ratings)
    (sc : List (String × ℝ)) (hsc : ∀ e ∈ sc, lookupBy tr e.1 = none) :
    ∀ e ∈ scoreUserRatings tr sim r sc, lookupBy tr e.1 = none := by
  induction r generalizing sc with
  | nil => exact hsc
  | cons a r2 ih =>
      rw [scoreUserRatings_cons]
      by_cases hatr : (lookupBy tr a.1).isSome
      · rw [if_pos hatr]
        exact ih sc hsc
      · rw [if_neg hatr]
        apply ih
        intro e he
        rcases mem_addScore_keys he with hk | hk
        · rw [hk]
          exact Option.not_isSome_iff_eq_none.mp hatr
        · obtain ⟨e2, he2, hk2⟩ := List.mem_map.mp hk
          rw [← hk2]
          exact hsc e2 he2
end RecommendationModel

namespace RecommendationModel

theorem scoreUserRatings_keys_nodup (tr : Ratings) (sim : ℝ) (r : Ratings)
    (sc : List (String × ℝ)) (hnd : (sc.map Prod.fst).Nodup) :
    ((scoreUserRatings tr sim r sc).map Prod.fst).Nodup := by
  induction r generalizing sc with
  | nil => exact hnd
  | cons a r2 ih =>
      rw [scoreUserRatings_cons]
      by_cases hatr : (lookupBy tr a.1).isSome
      · rw [if_pos hatr]
        exact ih sc hnd
      · rw [if_neg hatr]
        exact ih _ (addScore_keys_nodup a.1 _ hnd)

/-- Embeds the accumulation of `getRecommendations` over the similar users:
for each `(otherUser, similarity)` pair, fold that user's rating row into
the score map, scoring only items absent from the target's row. -/
noncomputable def accumulateScores (m : UserMatrix) (tr : Ratings)
    (us : List (String × ℝ)) (sc : List (String × ℝ)) : List (String × ℝ) :=
  us.foldl (fun sc2 p =>
    match ratingsOf m p.1 with
    | none => sc2
    | some r => scoreUserRatings tr p.2 r sc2) sc

theorem accumulateScores_nil (m : UserMatrix) (tr : Ratings)
    (sc : List (String × ℝ)) : accumulateScores m tr [] sc = sc := rfl

theorem accumulateScores_cons (m : UserMatrix) (tr : Ratings) (p : String × ℝ)
    (us : List (String × ℝ)) (sc : List (String × ℝ)) :
    accumulateScores m tr (p :: us) sc
      = accumulateScores m tr us
        (match ratingsOf m p.1 with
          | none => sc
          | some r => scoreUserRatings tr p.2 r sc) := by
  rw [accumulateScores, List.foldl_cons]
  rfl

/-- Contribution of one `(user, similarity)` pair to the score of `it`:
similarity times the user's rating of `it`, `0` when the user did not rate
it.  Follows the specification's description of the reported score. -/
noncomputable def userContribution (m : UserMatrix) (p : String × ℝ)
    (it : String) : ℝ :=
  match ratingsOf m p.1 with
  | none => 0
  | some r =>
    match lookupBy r it with
    | none => 0
    | some rating => p.2 * (rating : ℝ)

/-- Sum of the contributions of a list of `(user, similarity)` pairs. -/
noncomputable def totalContrib (m : UserMatrix) (us : List (String × ℝ))
    (it : String) : ℝ :=
  (us.map (fun p => userContribution m p it)).sum

/-- Whether some user of the list has rated `it` (thereby creating a score
entry for it, even when the contribution is numerically zero). -/
def touchesItem (m : UserMatrix) (p : String × ℝ) (it : String) : Bool :=
  match ratingsOf m p.1 with
  | none => false
  | some r => (lookupBy r it).isSome

theorem row_nodup_of_ratingsOf {m : UserMatrix} {u : String} {r : Ratings}
    (hrows : ∀ e ∈ m, (e.2.map Prod.fst).Nodup) (h : ratingsOf m u = some r) :
    (r.map Prod.fst).Nodup := by
  rw [ratingsOf, lookupBy] at h
  obtain ⟨e, hfind⟩ : ∃ e, m.find? (fun e => e.1 = u) = some e := by
    cases hf : m.find? (fun e => e.1 = u) with
    | none => rw [hf] at h; cases h
    | some e => exact ⟨e, rfl⟩
  have hmem : e ∈ m := List.mem_of_find?_eq_some hfind
  rw [hfind] at h
  have : e.2 = r := Option.some.inj h
  exact this ▸ hrows e hmem

theorem lookupBy_accumulateScores (m : UserMatrix) (tr : Ratings)
    (hrows : ∀ e ∈ m, (e.2.map Prod.fst).Nodup)
    (us : List (String × ℝ)) (sc : List (String × ℝ)) (it : String)
    (hit : lookupBy tr it = none) :
    lookupBy (accumulateScores m tr us sc) it
      = match lookupBy sc it with
        | some s => some (s + totalContrib m us it)
        | none =>
          if us.any (fun p => touchesItem m p it)
          then some (totalContrib m us it) else none := by
  have hit2 : ¬(lookupBy tr it).isSome = true := by
    rw [hit]
    simp
  induction us generalizing sc with
  | nil =>
      rw [accumulateScores_nil, totalContrib]
      cases h : lookupBy sc it with
      | none => simp
      | some s => simp
  | cons p us2 ih =>
      rw [accumulateScores_cons]
      have htc : totalContrib m (p :: us2) it
          = userContribution m p it + totalContrib m us2 it := by
        rw [totalContrib, List.map_cons, List.sum_cons, totalContrib]
      cases hr : ratingsOf m p.1 with
      | none =>
          rw [ih sc]
          have hcontrib : userContribution m p it = 0 := by
            simp only [userContribution, hr]
          have htouch : touchesItem m p it = false := by
            simp only [touchesItem, hr]
          rw [htc, hcontrib, zero_add, List.any_cons, htouch, Bool.false_or]
      | some r =>
          have hndr : (r.map Prod.fst).Nodup := row_nodup_of_ratingsOf hrows hr
          rw [ih (scoreUserRatings tr p.2 r sc),
            lookupBy_scoreUserRatings tr p.2 r hndr sc it, if_neg hit2]
          have htouch : touchesItem m p it = (lookupBy r it).isSome := by
            simp only [touchesItem, hr]
          cases hri : lookupBy r it with
          | none =>
              have hcontrib : userContribution m p it = 0 := by
                simp only [userContribution, hr, hri]
              rw [htc, hcontrib, zero_add, List.any_cons, htouch, hri]
              simp only [Option.isSome_none, Bool.false_or]
          | some rating =>
              have hcontrib : userContribution m p it = p.2 * (rating : ℝ) := by
                simp only [userContribution, hr, hri]
              rw [htc, hcontrib, List.any_cons, htouch, hri]
              simp only [Option.isSome_some, Bool.true_or]
              cases hsc : lookupBy sc it with
              | none =>
                  simp only [Option.getD_none, if_true]
                  rw [zero_add]
              | some s =>
                  simp only [Option.getD_some]
                  rw [add_assoc]

end RecommendationModel

namespace RecommendationModel

theorem accumulateScores_keys_not_rated (m : UserMatrix) (tr : Ratings)
    (us : List (String × ℝ)) (sc : List (String × ℝ))
    (hsc : ∀ e ∈ sc, lookupBy tr e.1 = none) :
    ∀ e ∈ accumulateScores m tr us sc, lookupBy tr e.1 = none := by
  induction us generalizing sc with
  | nil => exact hsc
  | cons p us2 ih =>
      rw [accumulateScores_cons]
      cases hr : ratingsOf m p.1 with
      | none => exact ih sc hsc
      | some r => exact ih _ (scoreUserRatings_keys_not_rated tr p.2 r sc hsc)

theorem accumulateScores_keys_nodup (m : UserMatrix) (tr : Ratings)
    (us : List (String × ℝ)) (sc : List (String × ℝ))
    (hnd : (sc.map Prod.fst).Nodup) :
    ((accumulateScores m tr us sc).map Prod.fst).Nodup := by
  induction us generalizing sc with
  | nil => exact hnd
  | cons p us2 ih =>
      rw [accumulateScores_cons]
      cases hr : ratingsOf m p.1 with
      | none => exact ih sc hnd
      | some r => exact ih _ (scoreUserRatings_keys_nodup tr p.2 r sc hnd)

/-- Embeds the common-items list of `calculateUserSimilarity`:
`[...user1Ratings.keys()].filter(item => user2Ratings.has(item))`. -/
def commonItems (r1 r2 : Ratings) : List String :=
  (r1.map Prod.fst).filter (fun it => (lookupBy r2 it).isSome)

/-- Embeds `calculateUserSimilarity(user1, user2)`: `0` for a missing user,
no common items, or a zero norm; otherwise the cosine similarity
`dot / (√norm1 * √norm2)` over the common items, with `Math.sqrt` modelled
by `Real.sqrt`. -/
noncomputable def calculateUserSimilarity (m : UserMatrix) (u1 u2 : String) : ℝ :=
  match ratingsOf m u1, ratingsOf m u2 with
  | some r1, some r2 =>
    let common := commonItems r1 r2
    if common = [] then 0
    else
      let dot := (common.map (fun it =>
        (lookupBy r1 it).getD 0 * (lookupBy r2 it).getD 0)).sum
      let norm1 := (common.map (fun it =>
        (lookupBy r1 it).getD 0 * (lookupBy r1 it).getD 0)).sum
      let norm2 := (common.map (fun it =>
        (lookupBy r2 it).getD 0 * (lookupBy r2 it).getD 0)).sum
      if norm1 = 0 ∨ norm2 = 0 then 0
      else (dot : ℝ) / (Real.sqrt (norm1 : ℝ) * Real.sqrt (norm2 : ℝ))
  | _, _ => 0

/-- Embeds the `this.users` set in insertion order: the matrix keys. -/
def usersOf (m : UserMatrix) : List String := m.map Prod.fst

/-- Embeds the `userSimilarities` map of `getRecommendations`: the other
users, in user-set order, whose similarity with the target is strictly
positive, paired with that similarity. -/
noncomputable def userSimilarities (m : UserMatrix) (targetUser : String) :
    List (String × ℝ) :=
  ((usersOf m).filter (fun u => u ≠ targetUser)).filterMap
    (fun u =>
      if 0 < calculateUserSimilarity m targetUser u
      then some (u, calculateUserSimilarity m targetUser u) else none)

/-- Embeds `getRecommendations(targetUser, topK)`: the empty list for a user
absent from the matrix, otherwise the accumulated scores of the unrated
items sorted by descending score (`.sort((a, b) => b.score - a.score)`,
modelled by a stable merge sort) and truncated to the first `topK`. -/
noncomputable def getRecommendations (m : UserMatrix) (targetUser : String)
    (topK : ℕ) : List (String × ℝ) :=
  match ratingsOf m targetUser with
  | none => []
  | some tr =>
    ((accumulateScores m tr (userSimilarities m targetUser) []).mergeSort
      (fun a b => decide (b.2 ≤ a.2))).take topK

/-- Score that the specification ascribes to an item: the sum over the
positively-similar users of similarity times that user's rating of the
item. -/
noncomputable def specScore (m : UserMatrix) (targetUser : String)
    (it : String) : ℝ :=
  totalContrib m (userSimilarities m targetUser) it

end RecommendationModel

namespace RecommendationModel

/-- C9: for every rating matrix (distinct items per row, as `addRating`
builds them) and every target user, `SimpleRecommender.getRecommendations`
returns the empty list when the target has no ratings in the matrix;
otherwise it returns at most `topK` items, none of which the target has
rated, sorted in non-increasing score order, and each reported score is the
sum over the positively-similar users of similarity times that user's
rating of the item. -/
theorem getRecommendations_spec (m : UserMatrix) (targetUser : String) (topK : ℕ)
    (hrows : ∀ e ∈ m, (e.2.map Prod.fst).Nodup) :
    (ratingsOf m targetUser = none → getRecommendations m targetUser topK = [])
    ∧ (getRecommendations m targetUser topK).length ≤ topK
    ∧ (∀ tr, ratingsOf m targetUser = some tr →
        ∀ e ∈ getRecommendations m targetUser topK, lookupBy tr e.1 = none)
    ∧ List.Pairwise (fun a b => b.2 ≤ a.2) (getRecommendations m targetUser topK)
    ∧ (∀ p ∈ userSimilarities m targetUser,
        0 < p.2 ∧ p.2 = calculateUserSimilarity m targetUser p.1)
    ∧ (∀ e ∈ getRecommendations m targetUser topK,
        e.2 = specScore m targetUser e.1) := by
  have hsims : ∀ p ∈ userSimilarities m targetUser,
      0 < p.2 ∧ p.2 = calculateUserSimilarity m targetUser p.1 := by
    intro p hp
    rw [userSimilarities] at hp
    obtain ⟨u, hu, hfu⟩ := List.mem_filterMap.mp hp
    by_cases hpos : 0 < calculateUserSimilarity m targetUser u
    · rw [if_pos hpos] at hfu
      obtain rfl := Option.some.inj hfu
      exact ⟨hpos, rfl⟩
    · rw [if_neg hpos] at hfu
      cases hfu
  have htrans : ∀ a b c : String × ℝ, decide (b.2 ≤ a.2) = true →
      decide (c.2 ≤ b.2) = true → decide (c.2 ≤ a.2) = true := by
    intro a b c hab hbc
    rw [decide_eq_true_eq] at hab hbc ⊢
    exact le_trans hbc hab
  have htotal : ∀ a b : String × ℝ,
      (decide (b.2 ≤ a.2) || decide (a.2 ≤ b.2)) = true := by
    intro a b
    rcases le_total b.2 a.2 with h | h <;> simp [h]
  cases hr0 : ratingsOf m targetUser with
  | none =>
      have hempty : getRecommendations m targetUser topK = [] := by
        rw [getRecommendations, hr0]
      refine ⟨fun _ => hempty, ?_, ?_, ?_, hsims, ?_⟩
      · rw [hempty]
        exact Nat.zero_le _
      · intro tr htr
        exact Option.noConfusion htr
      · rw [hempty]
        exact List.Pairwise.nil
      · rw [hempty]
        intro e he
        cases he
  | some tr0 =>
      have hout : getRecommendations m targetUser topK
          = ((accumulateScores m tr0 (userSimilarities m targetUser) []).mergeSort
              (fun a b => decide (b.2 ≤ a.2))).take topK := by
        rw [getRecommendations, hr0]
      have hkeysA : ∀ e ∈ accumulateScores m tr0 (userSimilarities m targetUser) [],
          lookupBy tr0 e.1 = none :=
        accumulateScores_keys_not_rated m tr0 _ [] (by intro e he; cases he)
      have hndA : ((accumulateScores m tr0 (userSimilarities m targetUser) []).map
          Prod.fst).Nodup :=
        accumulateScores_keys_nodup m tr0 _ [] List.nodup_nil
      have hmemA : ∀ e ∈ getRecommendations m targetUser topK,
          e ∈ accumulateScores m tr0 (userSimilarities m targetUser) [] := by
        intro e he
        rw [hout] at he
        exact (List.mem_mergeSort).mp (List.mem_of_mem_take he)
      refine ⟨?_, ?_, ?_, ?_, hsims, ?_⟩
      · intro h
        exact Option.noConfusion h
      · rw [hout, List.length_take]
        exact min_le_left _ _
      · intro tr htr
        obtain rfl := Option.some.inj htr
        exact fun e he => hkeysA e (hmemA e he)
      · have hs := List.sorted_mergeSort htrans htotal
          (accumulateScores m tr0 (userSimilarities m targetUser) [])
        have hsub : (getRecommendations m targetUser topK).Sublist
            ((accumulateScores m tr0 (userSimilarities m targetUser) []).mergeSort
              (fun a b => decide (b.2 ≤ a.2))) := by
          rw [hout]
          exact List.take_sublist _ _
        exact (List.Pairwise.sublist hsub hs).imp (fun h => of_decide_eq_true h)
      · intro e he
        have heA := hmemA e he
        have hlook : lookupBy (accumulateScores m tr0 (userSimilarities m targetUser) [])
            e.1 = some e.2 := lookupBy_of_mem_nodup hndA heA
        have hitnone : lookupBy tr0 e.1 = none := hkeysA e heA
        have hchar := lookupBy_accumulateScores m tr0 hrows
          (userSimilarities m targetUser) [] e.1 hitnone
        rw [hlook, lookupBy_nil] at hchar
        by_cases hany : ((userSimilarities m targetUser).any
            (fun p => touchesItem m p e.1)) = true
        · rw [if_pos hany] at hchar
          rw [specScore]
          exact Option.some.inj hchar
        · rw [if_neg hany] at hchar
          cases hchar

/-- Witness for C9 on a two-user matrix in which user `u2` shares item `i1`
with the target `u1` and also rated `i2`. -/
theorem getRecommendations_spec_witness :
    (∀ e ∈ ([("u1", [("i1", (1 : ℚ))]), ("u2", [("i1", 1), ("i2", 2)])] : UserMatrix),
      (e.2.map Prod.fst).Nodup)
    ∧ (getRecommendations [("u1", [("i1", (1 : ℚ))]), ("u2", [("i1", 1), ("i2", 2)])]
        "u1" 10).length ≤ 10 :=
  ⟨by decide,
    (getRecommendations_spec [("u1", [("i1", (1 : ℚ))]), ("u2", [("i1", 1), ("i2", 2)])]
      "u1" 10 (by decide)).2.1⟩

end RecommendationModel
